import Mathlib

/-!
# Verification of the npm-import-validator core

Shallow embedding, in Lean 4, of the import-extraction-and-validation
pipeline of the `npm-import-validator` repository: the specifier
classifier, the registry lookup engine with retry/backoff, the
document-level cache, the regex-based import extraction, the workspace
statistics accumulator and the unused-dependency analysis.  Each
definition is translated from the corresponding TypeScript source
(`src/importValidator.ts`, `src/packageInfoProvider.ts`,
`src/fileProcessor.ts`, `src/utils/common.ts`, `src/utils/constants.ts`
and the utility/file-processor modules), and the theorems at the end
settle the specification claims against these definitions.
-/

namespace NpmIV

/-- JavaScript strings are modelled as lists of characters (the sources
only manipulate ASCII text, so code units and characters coincide). -/
abbrev Str := List Char

/-- Coerce a Lean string literal into the `Str` model. -/
def str (s : String) : Str := s.data

/-- JS `String.prototype.startsWith`. -/
def jsStartsWith (s p : Str) : Bool := p.isPrefixOf s

/-- JS `String.prototype.includes` with a single-character argument. -/
def jsIncludesChar (s : Str) (c : Char) : Bool := s.contains c

/-- JS `String.prototype.includes` with an arbitrary substring. -/
def jsIncludes (s sub : Str) : Bool :=
  (List.range (s.length + 1)).any (fun i => sub.isPrefixOf (s.drop i))

/-- JS `String.prototype.split` on a single-character separator.
`splitOnChar c s` never returns `[]` (splitting the empty string
yields `[[]]`, as `"".split(c)` yields `[""]` in JS). -/
def splitOnChar (c : Char) : Str → List Str
  | [] => [[]]
  | x :: xs =>
    match splitOnChar c xs with
    | [] => [[]]
    | y :: ys => if x = c then [] :: y :: ys else (x :: y) :: ys

/-- Association-list model of a JS `Map`: `get` semantics. -/
def aGet {α β : Type} [DecidableEq α] : List (α × β) → α → Option β
  | [], _ => none
  | (k, v) :: rest, key => if k = key then some v else aGet rest key

/-- Association-list model of a JS `Map`: `set` semantics (overwrite the
existing binding or append a new one). -/
def aSet {α β : Type} [DecidableEq α] : List (α × β) → α → β → List (α × β)
  | [], key, v => [(key, v)]
  | (k, w) :: rest, key, v =>
    if k = key then (k, v) :: rest else (k, w) :: aSet rest key v

/-! ## Specifier classifier (`src/importValidator.ts`, final variant)

`_isLocalImport` and `_extractPackageName` are translated from the
memoized arrow functions of the final `ImportValidator` class.  The
VS Code configuration read inside `_isLocalImport`
(`pathAliases`, default `[]`) is passed as the `customAliases`
argument. -/

/-- `COMMON_PATH_ALIASES` from `src/utils/constants.ts`. -/
def COMMON_PATH_ALIASES : List Str :=
  [str "~", str "src/", str "components/", str "pages/", str "utils/",
   str "hooks/", str "lib/", str "assets/", str "styles/", str "config/",
   str "constants/"]

/-- One character of the JS character class `[a-zA-Z0-9_-]`. -/
def aliasWordChar (c : Char) : Bool :=
  decide (('a' ≤ c ∧ c ≤ 'z') ∨ ('A' ≤ c ∧ c ≤ 'Z') ∨ ('0' ≤ c ∧ c ≤ '9')
    ∨ c = '_' ∨ c = '-')

/-- Whether `importPath.match(/^@[a-zA-Z0-9_-]+/)` is non-null: the
string starts with `@` followed by at least one `[a-zA-Z0-9_-]`
character. -/
def matchesScopedAlias : Str → Bool
  | a :: b :: _ => a = '@' && aliasWordChar b
  | _ => false

/-- `_isLocalImport` (`src/importValidator.ts`): decides whether a
specifier is local/aliased rather than an external package reference. -/
def isLocalImport (customAliases : List Str) (importPath : Str) : Bool :=
  if jsStartsWith importPath (str ".") || jsStartsWith importPath (str "/") then
    true
  else if matchesScopedAlias importPath then
    -- Skip checking scoped packages like @babel/core
    if jsIncludesChar importPath '/'
        && !(customAliases.any (fun a => jsStartsWith importPath a)) then
      false
    else
      true
  else
    (COMMON_PATH_ALIASES ++ customAliases).any
      (fun a => jsStartsWith importPath a)

/-- `_extractPackageName` (`src/importValidator.ts`): normalizes a deep
or scoped specifier to its root package name. -/
def extractPackageName (importPath : Str) : Str :=
  if jsStartsWith importPath (str "@") && !jsStartsWith importPath (str "@/") then
    match splitOnChar '/' importPath with
    | p0 :: p1 :: _ => p0 ++ ['/'] ++ p1
    | _ => (splitOnChar '/' importPath).headD []
  else
    (splitOnChar '/' importPath).headD []

/-- The specification's classification result: a specifier is either a
local/aliased reference or an external package reference with a root
package name. -/
inductive Classification where
  | Local : Classification
  | External (root : Str) : Classification
deriving DecidableEq, Repr

/-- `classify`: the composition the validator applies to each specifier
(occurrences for which `_isLocalImport` holds are discarded; the rest
are normalized with `_extractPackageName`). -/
def classify (customAliases : List Str) (s : Str) : Classification :=
  if isLocalImport customAliases s then .Local
  else .External (extractPackageName s)

/-! ## Retry with exponential backoff (`retry` in `src/utils/common.ts`)

The retried thunk is modelled as a function of the attempt index (the
network environment decides how each attempt turns out).  The returned
list records every delay slept, in order. -/

/-- A thrown JS `Error` value: its `name` and `message` fields. -/
structure JsError where
  name : String
  message : String
deriving DecidableEq, Repr

/-- JS `String.prototype.includes` on Lean `String`s. -/
def jsIncludesS (s sub : String) : Bool := jsIncludes (str s) (str sub)

/-- Loop body of `retry`: `attempt` counts up from 0 to `maxRetries`;
the fuel is `maxRetries + 1 - attempt`, so the fuel-exhausted branch is
never reached (the code's final `throw lastError` is likewise
unreachable). -/
def retryGo {α : Type} (fn : Nat → Except JsError α) (retryCondition : JsError → Bool)
    (maxRetries backoffFactor maxDelay : Nat) :
    Nat → Nat → Nat → List Nat → Except JsError α × List Nat
  | 0, _, _, delays => (.error ⟨"Error", "unreachable"⟩, delays)
  | fuel + 1, attempt, delay, delays =>
    match fn attempt with
    | .ok v => (.ok v, delays)
    | .error e =>
      if attempt ≥ maxRetries || !retryCondition e then (.error e, delays)
      else
        retryGo fn retryCondition maxRetries backoffFactor maxDelay
          fuel (attempt + 1) (min (delay * backoffFactor) maxDelay)
          (delays ++ [delay])

/-- `retry` (`src/utils/common.ts`): runs `fn` up to `maxRetries + 1`
times, sleeping `delay` between attempts and multiplying the delay by
`backoffFactor` (capped at `maxDelay`) after each retry.  Only errors
satisfying `retryCondition` are retried. -/
def retry {α : Type} (fn : Nat → Except JsError α) (retryCondition : JsError → Bool)
    (maxRetries initialDelay maxDelay backoffFactor : Nat) :
    Except JsError α × List Nat :=
  retryGo fn retryCondition maxRetries backoffFactor maxDelay
    (maxRetries + 1) 0 initialDelay []

/-! ## Registry lookup engine (`src/packageInfoProvider.ts`) -/

/-- `PackageInfo` (`src/types`): the metadata record returned by the
provider. -/
structure PackageInfo where
  name : String
  version : String
  description : String
  homepage : String
  repository : String
  license : String
  author : String
  keywords : List String
  downloads : Nat
  isInProject : Bool
deriving DecidableEq, Repr

/-- The `author` field of the registry JSON: a string or an object with
an optional `name`. -/
inductive JsAuthor where
  | strAuthor (s : String)
  | objAuthor (name : Option String)
deriving DecidableEq, Repr

/-- `NpmPackageData`: the relevant fields of the registry's JSON
document; optional fields model `undefined`. -/
structure NpmPackageData where
  name : String
  version : String
  description : Option String
  homepage : Option String
  repositoryUrl : Option String
  license : Option String
  author : Option JsAuthor
  keywords : Option (List String)
  distTagsLatest : Option String
deriving DecidableEq, Repr

/-- JS `x || d` on an optional string (`undefined` and `""` are falsy). -/
def jsOrElse (x : Option String) (d : String) : String :=
  match x with
  | some s => if s = "" then d else s
  | none => d

/-- One network attempt seen by `fetchPackageInfoFromNpm`: either the
fetch threw (timeout/abort/network error), or a response arrived.
`downloadsResult` models the best-effort secondary download-count fetch
bundled with a successful response: `some d` when it succeeded with
`{downloads: d}`, `none` when it failed or was non-OK (the code then
keeps `downloads = 0`). -/
inductive FetchEvent where
  | thrown (e : JsError)
  | response (status : Nat) (statusText : String) (data : NpmPackageData)
      (downloadsResult : Option Nat)
deriving Repr

/-- `isPackageInProject` (`src/packageInfoProvider.ts`). -/
def isPackageInProject (projectPackages : List (String × String))
    (packageName : String) : Bool :=
  (aGet projectPackages packageName).isSome

/-- Builds the `PackageInfo` record from a successful registry
response, exactly as the success path of `fetchPackageInfoFromNpm`. -/
def mkPackageInfo (data : NpmPackageData) (downloadsResult : Option Nat)
    (inProject : Bool) : PackageInfo :=
  { name := data.name
    version := jsOrElse data.distTagsLatest data.version
    description := jsOrElse data.description ""
    homepage := jsOrElse data.homepage ""
    repository := jsOrElse data.repositoryUrl ""
    license := jsOrElse data.license "Unknown"
    author :=
      match data.author with
      | some (.strAuthor s) => s
      | some (.objAuthor (some n)) => if n = "" then "" else n
      | some (.objAuthor none) => ""
      | none => ""
    keywords := (data.keywords).getD []
    downloads := downloadsResult.getD 0
    isInProject := inProject }

/-- The thunk passed to `retry` by `fetchPackageInfoFromNpm`: a 404
response resolves to `null` (no retry); any other non-2xx response
throws `Error("Failed to fetch package info: ...")`; a 2xx response
builds the metadata record. -/
def attemptFetch (projectPackages : List (String × String)) (packageName : String)
    (env : Nat → FetchEvent) (attempt : Nat) :
    Except JsError (Option PackageInfo) :=
  match env attempt with
  | .thrown e => .error e
  | .response status statusText data downloadsResult =>
    if status = 404 then .ok none
    else if !(decide (200 ≤ status) && decide (status < 300)) then
      .error ⟨"Error",
        "Failed to fetch package info: " ++ statusText ++ " (" ++ toString status ++ ")"⟩
    else
      .ok (some (mkPackageInfo data downloadsResult
        (isPackageInProject projectPackages packageName)))

/-- The `retryCondition` of `fetchPackageInfoFromNpm`: retry only on
network errors or timeouts. -/
def fetchRetryCondition (e : JsError) : Bool :=
  e.name = "AbortError" || jsIncludesS e.message "network"
    || jsIncludesS e.message "timeout"

/-- `DEFAULT_CONFIG.fetchRetryCount` (`src/utils/constants.ts`). -/
def fetchRetryCount : Nat := 3

/-- `DEFAULT_CONFIG.fetchRetryDelay` (`src/utils/constants.ts`). -/
def fetchRetryDelay : Nat := 1000

/-- `fetchPackageInfoFromNpm` (`src/packageInfoProvider.ts`): the
retried registry fetch.  The surrounding `try/catch` maps retry
exhaustion (or a non-retried error) to `null`; the list of slept
backoff delays is returned alongside. -/
def fetchPackageInfoFromNpm (projectPackages : List (String × String))
    (packageName : String) (env : Nat → FetchEvent) :
    Option PackageInfo × List Nat :=
  match retry (attemptFetch projectPackages packageName env) fetchRetryCondition
      fetchRetryCount fetchRetryDelay 10000 2 with
  | (.ok v, delays) => (v, delays)
  | (.error _, delays) => (none, delays)

/-- The mutable state of a `PackageInfoProvider` instance. -/
structure ProviderState where
  packageInfoCache : List (String × (Option PackageInfo × Int))
  projectPackages : List (String × String)
deriving Repr, DecidableEq

/-- The synthetic minimal metadata record built from project data when
the opportunistic registry fetch of a declared dependency fails
(`minimalInfo` in `getPackageInfo`). -/
def minimalRecord (packageName installedVersion : String) : PackageInfo :=
  { name := packageName
    version := installedVersion
    description := "Package found in project dependencies"
    homepage := ""
    repository := ""
    license := "Unknown"
    author := ""
    keywords := []
    downloads := 0
    isInProject := true }

/-- The non-cached tail of `getPackageInfo`: project-membership
short-circuit with opportunistic fetch and synthetic fallback, or a
plain fetch whose result (positive or negative) is cached. -/
def getPackageInfoUncached (st : ProviderState) (packageName : String)
    (now : Int) (env : Nat → FetchEvent) : Option PackageInfo × ProviderState :=
  match aGet st.projectPackages packageName with
  | some installedVersion =>
    if installedVersion ≠ "" then
      -- Package is a declared project dependency: assume it exists.
      match (fetchPackageInfoFromNpm st.projectPackages packageName env).1 with
      | some npmInfo => (some npmInfo, st)
      | none =>
        let minimalInfo : PackageInfo := minimalRecord packageName installedVersion
        (some minimalInfo,
          { st with
              packageInfoCache :=
                aSet st.packageInfoCache packageName (some minimalInfo, now) })
    else
      let packageInfo := (fetchPackageInfoFromNpm st.projectPackages packageName env).1
      (packageInfo,
        { st with
            packageInfoCache :=
              aSet st.packageInfoCache packageName (packageInfo, now) })
  | none =>
    let packageInfo := (fetchPackageInfoFromNpm st.projectPackages packageName env).1
    (packageInfo,
      { st with
          packageInfoCache :=
            aSet st.packageInfoCache packageName (packageInfo, now) })

/-- `getPackageInfo` (`src/packageInfoProvider.ts`): cache check first,
then the project-membership short-circuit, then the plain registry
fetch.  (`fetchPackageInfoFromNpm` never throws, so the code's final
`catch` branch is dead.) -/
def getPackageInfo (st : ProviderState) (packageName : String) (now : Int)
    (cacheTimeout : Int) (env : Nat → FetchEvent) :
    Option PackageInfo × ProviderState :=
  match aGet st.packageInfoCache packageName with
  | some cached =>
    if now - cached.2 < cacheTimeout * 1000 then (cached.1, st)
    else getPackageInfoUncached st packageName now env
  | none => getPackageInfoUncached st packageName now env


/-- Joins path segments with a separator character (inverse of
`splitOnChar` when no segment contains the separator); used to state
root-name normalization for arbitrary deep specifiers. -/
def joinSegs (c : Char) : List Str → Str
  | [] => []
  | [x] => x
  | x :: y :: rest => x ++ c :: joinSegs c (y :: rest)


/-! ## A small backtracking regular-expression engine

The JS `RegExp` literals of the parser component are transcribed
syntax-element by syntax-element into this AST.  The matcher is a
fuelled CPS backtracking matcher mirroring JS semantics: leftmost
match, first-alternative-wins, greedy quantifiers with full
backtracking, and no empty quantifier iterations.  `eos` is the `$`
assertion (end of input: none of the transcribed literals use the `m`
flag), and `nlb` is a negative lookbehind `(?<!...)` on a
single-character class. -/

/-- Regular-expression AST. -/
inductive RE where
  | eps : RE
  | cls (p : Char → Bool) : RE
  | seq (a b : RE) : RE
  | alt (a b : RE) : RE
  | star (r : RE) : RE
  | plus (r : RE) : RE
  | opt (r : RE) : RE
  | grp (r : RE) : RE
  | eos : RE
  | nlb (p : Char → Bool) : RE

/-- A single literal character. -/
def reLit (c : Char) : RE := .cls (fun d => d = c)

/-- A literal word, character by character. -/
def reOf (w : String) : RE := w.data.foldr (fun c acc => .seq (reLit c) acc) .eps

/-- Sequencing of a list of regular expressions. -/
def reSeq (l : List RE) : RE := l.foldr RE.seq .eps

/-- The JS class `\s` (the whitespace characters that occur in source
text; exotic Unicode space code points are omitted). -/
def wsChar (c : Char) : Bool :=
  c = ' ' || c = Char.ofNat 9 || c = Char.ofNat 10 || c = Char.ofNat 13
    || c = Char.ofNat 11 || c = Char.ofNat 12

/-- The JS class `\w`. -/
def wordChar (c : Char) : Bool := c.isAlpha || c.isDigit || c = '_'

/-- The single-quote character (written by code point to keep the
development free of quote-literal pitfalls). -/
def squote : Char := Char.ofNat 39

/-- The JS class `['"]`. -/
def quoteChar (c : Char) : Bool := c = squote || c = '"'

/-- The JS class `[^'"]`. -/
def notQuoteChar (c : Char) : Bool := !(quoteChar c)

/-- The JS class `[^}]`. -/
def notRBrace (c : Char) : Bool := !(c = '}')

/-- The JS class `[^{}]`. -/
def notBraceChar (c : Char) : Bool := !(c = '{' || c = '}')

/-- CPS backtracking matcher.  `reMatch full fuel re pos cap k` tries
to match `re` at position `pos` of `full`, threading the (single)
capture-group span `cap`, and calls the continuation `k` on every
candidate end state until one succeeds. -/
def reMatch (full : Str) :
    Nat → RE → Nat → Option (Nat × Nat) →
    (Nat → Option (Nat × Nat) → Option (Nat × Option (Nat × Nat))) →
    Option (Nat × Option (Nat × Nat))
  | 0, _, _, _, _ => none
  | fuel + 1, re, pos, cap, k =>
    match re with
    | .eps => k pos cap
    | .cls p =>
      match full.get? pos with
      | some c => if p c then k (pos + 1) cap else none
      | none => none
    | .seq a b =>
      reMatch full fuel a pos cap (fun pos2 cap2 => reMatch full fuel b pos2 cap2 k)
    | .alt a b =>
      match reMatch full fuel a pos cap k with
      | some res => some res
      | none => reMatch full fuel b pos cap k
    | .star r =>
      match reMatch full fuel r pos cap (fun pos2 cap2 =>
          if pos < pos2 then reMatch full fuel (.star r) pos2 cap2 k else none) with
      | some res => some res
      | none => k pos cap
    | .plus r => reMatch full fuel (.seq r (.star r)) pos cap k
    | .opt r =>
      match reMatch full fuel r pos cap k with
      | some res => some res
      | none => k pos cap
    | .grp r => reMatch full fuel r pos cap (fun pos2 _ => k pos2 (some (pos, pos2)))
    | .eos => if pos = full.length then k pos cap else none
    | .nlb p =>
      if pos = 0 then k pos cap
      else
        match full.get? (pos - 1) with
        | some c => if p c then none else k pos cap
        | none => k pos cap

/-- A size measure used to pick a sufficient fuel. -/
def reSize : RE → Nat
  | .eps => 1
  | .cls _ => 1
  | .seq a b => reSize a + reSize b + 1
  | .alt a b => reSize a + reSize b + 1
  | .star r => reSize r + 2
  | .plus r => 2 * reSize r + 4
  | .opt r => reSize r + 1
  | .grp r => reSize r + 1
  | .eos => 1
  | .nlb _ => 1

/-- Fuel that is ample for the concrete texts evaluated here (every
theorem about a concrete text checks the produced matches, so an
insufficient fuel could never go unnoticed). -/
def reFuel (re : RE) (full : Str) : Nat := (reSize re + 2) * (full.length + 2)

/-- One `regex.exec` scan step: the `while ((match = regex.exec(text)))`
loop of the source, with `lastIndex` advancing to each match end.  The
first argument counts the remaining scan steps (the loop advances by at
least one position per step, so `full.length + 2` steps suffice; the
transcribed regexes cannot match the empty string). -/
def findMatchesGo (re : RE) (full : Str) (fuel : Nat) :
    Nat → Nat → List (Nat × Nat × Option (Nat × Nat))
  | 0, _ => []
  | rem + 1, start =>
    if start > full.length then []
    else
      match reMatch full fuel re start none (fun pos cap => some (pos, cap)) with
      | some (e, cap) =>
        (start, e, cap) ::
          findMatchesGo re full fuel rem (if start < e then e else start + 1)
      | none => findMatchesGo re full fuel rem (start + 1)

/-- All matches of a global regex over a text, in scan order. -/
def findMatches (re : RE) (full : Str) : List (Nat × Nat × Option (Nat × Nat)) :=
  findMatchesGo re full (reFuel re full) (full.length + 2) 0

/-- JS `text.substring(s, e)` (used to read a capture group back). -/
def substrOf (full : Str) (s e : Nat) : Str := (full.drop s).take (e - s)

/-! ## The parser component's regular expressions
(`src/importValidator.ts`, final variant), transcribed literally. -/

/-- `(?:\{[^}]*\}|\*\s+as\s+\w+|\w+)` — one import clause of the
fallback import regex. -/
def importClauseRe : RE :=
  .alt (reSeq [reLit '{', .star (.cls notRBrace), reLit '}'])
    (.alt (reSeq [reLit '*', .plus (.cls wsChar), reOf "as", .plus (.cls wsChar),
        .plus (.cls wordChar)])
      (.plus (.cls wordChar)))

/-- The regex-fallback import pattern of `_extractImportsWithRegex`. -/
def jsImportRegex : RE :=
  reSeq [reOf "import", .plus (.cls wsChar),
    .opt (reSeq [importClauseRe,
      .star (reSeq [.star (.cls wsChar), reLit ',', .star (.cls wsChar), importClauseRe]),
      .plus (.cls wsChar), reOf "from", .plus (.cls wsChar)]),
    .cls quoteChar, .grp (.plus (.cls notQuoteChar)), .cls quoteChar]

/-- `typeImportRegex` of `_extractTypeImports`. -/
def jsTypeImportRegex : RE :=
  reSeq [reOf "import", .plus (.cls wsChar), reOf "type", .plus (.cls wsChar),
    .alt (reSeq [reLit '{', .star (.cls notRBrace), reLit '}'])
      (reSeq [reLit '*', .plus (.cls wsChar), reOf "as", .plus (.cls wsChar),
        .plus (.cls wordChar)]),
    .plus (.cls wsChar), reOf "from", .plus (.cls wsChar),
    .cls quoteChar, .grp (.plus (.cls notQuoteChar)), .cls quoteChar]

/-- `inlineTypeImportRegex` of `_extractTypeImports`. -/
def jsInlineTypeImportRegex : RE :=
  reSeq [reOf "import", .plus (.cls wsChar), reLit '{', .star (.cls wsChar),
    .opt (reSeq [.star (.cls notBraceChar), reLit ',', .star (.cls wsChar)]),
    reOf "type", .plus (.cls wsChar), .star (.cls notBraceChar), reLit '}',
    .plus (.cls wsChar), reOf "from", .plus (.cls wsChar),
    .cls quoteChar, .grp (.plus (.cls notQuoteChar)), .cls quoteChar]

/-- `requireRegex` of `_extractCommonJSRequires`, transcribed exactly:
the source literal contains `$$` (two end-of-input assertions) where
escaped parentheses would be expected, so the pattern demands the end
of input in mid-pattern and right before a mandatory quote
character. -/
def jsRequireRegex : RE :=
  reSeq [.alt (reOf "const") (.alt (reOf "let") (reOf "var")),
    .plus (.cls wsChar),
    .alt (.plus (.cls wordChar))
      (reSeq [reLit '{', .star (.cls wsChar), .plus (.cls notRBrace),
        .star (.cls wsChar), reLit '}']),
    .star (.cls wsChar), reLit '=', .star (.cls wsChar),
    reOf "require", .star (.cls wsChar),
    .eos, .eos,
    .star (.cls wsChar), .cls quoteChar, .grp (.plus (.cls notQuoteChar)),
    .cls quoteChar, .star (.cls wsChar), .eos, .eos]

/-- `dynamicRequireRegex` of `_extractCommonJSRequires`, transcribed
exactly (same `$$` artifact). -/
def jsDynamicRequireRegex : RE :=
  reSeq [.nlb (fun c => wordChar c || c = '$'),
    reOf "require", .star (.cls wsChar),
    .eos, .eos,
    .star (.cls wsChar), .cls quoteChar, .grp (.plus (.cls notQuoteChar)),
    .cls quoteChar, .star (.cls wsChar), .eos, .eos]

/-! ## Framework classifier (`_isFrameworkPackage`) -/

/-- `COMMON_FRAMEWORKS` from `src/utils/constants.ts`. -/
def COMMON_FRAMEWORKS : List Str :=
  [str "react", str "react-dom", str "react-router", str "react-router-dom",
   str "react-query", str "react-hook-form", str "react-redux", str "redux",
   str "redux-toolkit", str "@reduxjs/toolkit", str "recoil", str "jotai",
   str "zustand", str "formik", str "react-select", str "react-table",
   str "react-spring", str "framer-motion",
   str "next", str "next-auth", str "next-i18next", str "next-seo",
   str "next-themes",
   str "@mui/material", str "@mui/icons-material", str "@emotion/react",
   str "@emotion/styled", str "styled-components", str "tailwindcss",
   str "twin.macro", str "antd", str "chakra-ui", str "@chakra-ui/react",
   str "@mantine/core", str "bootstrap", str "reactstrap",
   str "swr", str "axios", str "graphql", str "apollo-client",
   str "@apollo/client", str "urql",
   str "express", str "koa", str "fastify", str "nest", str "@nestjs/core",
   str "hapi", str "restify",
   str "prisma", str "@prisma/client", str "mongoose", str "sequelize",
   str "typeorm", str "knex", str "drizzle-orm",
   str "jest", str "@testing-library/react", str "@testing-library/jest-dom",
   str "cypress", str "playwright",
   str "webpack", str "rollup", str "vite", str "esbuild", str "parcel",
   str "lodash", str "date-fns", str "dayjs", str "zod", str "yup",
   str "uuid", str "nanoid"]

/-- `FRAMEWORK_PREFIXES` from `src/utils/constants.ts`. -/
def FRAMEWORK_PREFIXES : List Str :=
  [str "react-", str "next-", str "@react/", str "@next/"]

/-- The anchored regex a user wildcard pattern is translated to
(`pattern.replace(/\./g, "\\.").replace(/\*/g, ".*")` inside `^...$`):
`.` becomes a literal dot, `*` becomes `.*`; the package-name patterns
in play contain no other regex metacharacters. -/
def wildcardRe (pattern : Str) : RE :=
  reSeq (pattern.map (fun c => if c = '*' then RE.star (.cls (fun _ => true)) else reLit c))

/-- `new RegExp(...).test(packageName)` for the anchored translated
pattern: a full-length match from position 0. -/
def wildcardTest (pattern name : Str) : Bool :=
  (reMatch name (reFuel (wildcardRe pattern) name) (wildcardRe pattern) 0 none
    (fun pos _ => if pos = name.length then some (pos, none) else none)).isSome

/-- `_isFrameworkPackage` (`src/importValidator.ts`): curated list,
user ignore-list (exact or wildcard), scoped-framework prefix, or
framework-ish name prefix. -/
def isFrameworkPackage (packageName : Str) (ignoredPackages : List Str) : Bool :=
  COMMON_FRAMEWORKS.contains packageName
    || ignoredPackages.contains packageName
    || COMMON_FRAMEWORKS.any (fun fw =>
        jsStartsWith fw (str "@") && jsStartsWith packageName (fw ++ ['/']))
    || ignoredPackages.any (fun pattern =>
        jsIncludesChar pattern '*' && wildcardTest pattern packageName)
    || FRAMEWORK_PREFIXES.any (fun p => jsStartsWith packageName p)

/-! ## Memoization (`memoize` in `src/utils/common.ts`)

`memoize` keys its cache by `JSON.stringify(args)`; `JSON.stringify`
is injective on the argument tuples used by the memoized classifiers
(a single string, or a string and an array of strings), so the cache
is modelled as keyed by the argument value itself.  The wrapped
function may read the live user configuration, modelled as the extra
`cfg` argument that is NOT part of the cache key. -/

/-- One call through a `memoize` wrapper: on a hit the cached value is
returned (the current configuration is never consulted); on a miss the
result is computed from the current configuration and cached. -/
def memoCall {γ α β : Type} [DecidableEq α] (f : γ → α → β) (cfg : γ)
    (cache : List (α × β)) (x : α) : β × List (α × β) :=
  match aGet cache x with
  | some v => (v, cache)
  | none => (f cfg x, aSet cache x (f cfg x))

/-! ## Import extraction (`src/importValidator.ts`, final variant) -/

/-- `EImportType`. -/
inductive EImportType where
  | ES6 : EImportType
  | COMMONJS : EImportType
  | TYPE : EImportType
deriving DecidableEq, Repr

/-- The string value of the `EImportType` enum member. -/
def eImportTypeStr : EImportType → String
  | .ES6 => "import"
  | .COMMONJS => "require"
  | .TYPE => "type-import"

/-- `IImportData`: one extracted occurrence (source span kept as
offsets; `positionAt` converts offsets to editor positions
one-to-one). -/
structure IImportData where
  importName : Str
  rangeStart : Nat
  rangeEnd : Nat
  importType : EImportType
deriving DecidableEq, Repr

/-- The shared loop body of `_extractImportsWithRegex`,
`_processTypeImportRegex` and `_processRequireRegex`: for every match,
read the captured specifier, skip local specifiers, normalize the root
package name and emit an occurrence spanning the whole match. -/
def processRegexMatches (customAliases : List Str) (re : RE) (text : Str)
    (ty : EImportType) : List IImportData :=
  (findMatches re text).filterMap (fun m =>
    match m.2.2 with
    | some (cs, ce) =>
      let importPath := substrOf text cs ce
      if isLocalImport customAliases importPath then none
      else some ⟨extractPackageName importPath, m.1, m.2.1, ty⟩
    | none => none)

/-- `_extractImportsWithRegex`: the regex fallback for ES imports. -/
def extractImportsWithRegex (customAliases : List Str) (text : Str) :
    List IImportData :=
  processRegexMatches customAliases jsImportRegex text .ES6

/-- `_extractTypeImports`: the plain type-import pass followed by the
inline type-import pass, appended in that order. -/
def extractTypeImports (customAliases : List Str) (text : Str) :
    List IImportData :=
  processRegexMatches customAliases jsTypeImportRegex text .TYPE
    ++ processRegexMatches customAliases jsInlineTypeImportRegex text .TYPE

/-- `_extractCommonJSRequires`: the declaration-initializer pass
followed by the dynamic-call pass. -/
def extractCommonJSRequires (customAliases : List Str) (text : Str) :
    List IImportData :=
  processRegexMatches customAliases jsRequireRegex text .COMMONJS
    ++ processRegexMatches customAliases jsDynamicRequireRegex text .COMMONJS

/-- An `ImportDeclaration` node as produced by the structural
(esprima) parse, reduced to the fields the extractor reads. -/
structure ESImportNode where
  importPath : Str
  nStart : Nat
  nEnd : Nat
deriving DecidableEq, Repr

/-- `_extractES6Imports`: the structural parse is an external library
(esprima), modelled as an oracle; `some nodes` is a successful parse
(the extractor walks the `ImportDeclaration` nodes in body order) and
`none` a parse failure, on which the code falls back to
`_extractImportsWithRegex`. -/
def extractES6Imports (customAliases : List Str)
    (esOracle : Option (List ESImportNode)) (text : Str) : List IImportData :=
  match esOracle with
  | some nodes =>
    nodes.filterMap (fun n =>
      if isLocalImport customAliases n.importPath then none
      else some ⟨extractPackageName n.importPath, n.nStart, n.nEnd, .ES6⟩)
  | none => extractImportsWithRegex customAliases text

/-- `_extractImportsFromDocument`: ES6 pass, then type-import passes,
then CommonJS passes, appended in that order. -/
def extractImportsFromDocument (customAliases : List Str)
    (esOracle : Option (List ESImportNode)) (text : Str) : List IImportData :=
  extractES6Imports customAliases esOracle text
    ++ extractTypeImports customAliases text
    ++ extractCommonJSRequires customAliases text

/-- `IImportResult`: the validator's per-import result record. -/
structure IImportResult where
  importName : Str
  rangeStart : Nat
  rangeEnd : Nat
  existsOnNpm : Bool
  packageInfo : Option PackageInfo
  importType : EImportType
  isFramework : Bool
  isInProject : Bool
deriving DecidableEq, Repr

/-- The per-import enrichment performed inside `_validateImports`
(framework flag, project membership, and the resolved existence and
metadata for a fixed registry state `resolve`). -/
def enrichImport (ignoredPackages : List Str) (resolve : Str → Bool × Option PackageInfo)
    (inProject : Str → Bool) (i : IImportData) : IImportResult :=
  { importName := i.importName
    rangeStart := i.rangeStart
    rangeEnd := i.rangeEnd
    existsOnNpm := (resolve i.importName).1
    packageInfo := (resolve i.importName).2
    importType := i.importType
    isFramework := isFrameworkPackage i.importName ignoredPackages
    isInProject := inProject i.importName }

/-- `_validateImports`: maps every occurrence to `null` (local) or its
enriched result, then pushes the non-null results in order (the code
awaits `Promise.all` over the mapped array and then filters out the
`null`s with an in-order loop). -/
def validateImports (ignoredPackages customAliases : List Str)
    (resolve : Str → Bool × Option PackageInfo) (inProject : Str → Bool)
    (imports : List IImportData) : List IImportResult :=
  let validationResults := imports.map (fun i =>
    if isLocalImport customAliases i.importName then none
    else some (enrichImport ignoredPackages resolve inProject i))
  validationResults.foldr (fun o acc =>
    match o with
    | some r => r :: acc
    | none => acc) []


/-! ## Document-level cache (`validateDocument` / `_isCacheValid`,
`src/importValidator.ts`, final variant)

The per-import resolution pipeline (`_extractImportsFromDocument`
followed by `_validateImports` under a fixed configuration and fixed
registry state) is passed as the deterministic function `pipeline`. -/

/-- `IImportCache`: one document-cache entry. -/
structure IImportCache where
  results : List IImportResult
  timestamp : Int
deriving DecidableEq, Repr

/-- The validator's document cache. -/
structure ValidatorState where
  documentImportsCache : List (String × IImportCache)
deriving DecidableEq, Repr

/-- `_isCacheValid`. -/
def isCacheValid (st : ValidatorState) (documentUri : String)
    (now cacheTimeout : Int) : Bool :=
  match aGet st.documentImportsCache documentUri with
  | some c => decide (now - c.timestamp < cacheTimeout * 1000)
  | none => false

/-- `validateDocument`: fresh cache hit returns the cached vector
verbatim; otherwise the pipeline runs and its result is stored with the
current timestamp. -/
def validateDocument (st : ValidatorState) (documentUri : String) (text : Str)
    (now cacheTimeout : Int) (pipeline : Str → List IImportResult) :
    List IImportResult × ValidatorState :=
  match aGet st.documentImportsCache documentUri with
  | some c =>
    if now - c.timestamp < cacheTimeout * 1000 then (c.results, st)
    else
      let results := pipeline text
      (results, ⟨aSet st.documentImportsCache documentUri ⟨results, now⟩⟩)
  | none =>
    let results := pipeline text
    (results, ⟨aSet st.documentImportsCache documentUri ⟨results, now⟩⟩)

/-! ## Workspace statistics (`updateStatsForFile` in the file-processor
module, `src/unnamed/part_011`) -/

/-- JS `Set.has` on a list-modelled set. -/
def setHas (s : List String) (k : String) : Bool := decide (k ∈ s)

/-- JS `Set.add` on a list-modelled set. -/
def setAdd (s : List String) (k : String) : List String :=
  if setHas s k then s else s ++ [k]

/-- The counters of `ProcessingStats` that the claims concern (the
remaining fields — timing, percentage, error files — do not interact
with the counting logic). -/
structure ScanStats where
  totalFiles : Nat
  processedFiles : Nat
  skippedFiles : Nat
  unchangedFiles : Nat
  totalImports : Nat
  validImports : Nat
  invalidImports : Nat
  frameworkImports : Nat
  projectImports : Nat
deriving DecidableEq, Repr

/-- The all-zero stats record (`createEmptyStats`). -/
def emptyStats : ScanStats := ⟨0, 0, 0, 0, 0, 0, 0, 0, 0⟩

/-- The composite dedup key `filePath:importName:importType`. -/
def importKeyOf (filePath : String) (r : IImportResult) : String :=
  filePath ++ ":" ++ String.mk r.importName ++ ":" ++ eImportTypeStr r.importType

/-- The per-result counting state of `updateStatsForFile`. -/
structure CountAcc where
  valid : Nat
  invalid : Nat
  framework : Nat
  project : Nat
  seen : List String
deriving DecidableEq, Repr

/-- The `for (const result of results)` loop of `updateStatsForFile`:
during a workspace scan an already-seen composite key is skipped;
otherwise the key is marked and the result counted by kind. -/
def countLoop (filePath : String) (isWorkspaceScan : Bool) :
    List IImportResult → List String → CountAcc
  | [], seen => ⟨0, 0, 0, 0, seen⟩
  | r :: rest, seen =>
    let key := importKeyOf filePath r
    if isWorkspaceScan && setHas seen key then
      countLoop filePath isWorkspaceScan rest seen
    else
      let acc := countLoop filePath isWorkspaceScan rest (setAdd seen key)
      { acc with
          valid := acc.valid + (if r.existsOnNpm && !r.isFramework then 1 else 0)
          invalid := acc.invalid + (if !r.existsOnNpm && !r.isFramework then 1 else 0)
          framework := acc.framework + (if r.isFramework then 1 else 0)
          project := acc.project + (if r.isInProject then 1 else 0) }

/-- The statistics session of the file processor: the accumulated stats
and the session-scoped already-counted key set. -/
structure FPSession where
  stats : ScanStats
  processedImportsInSession : List String
deriving DecidableEq, Repr

/-- `updateStatsForFile` (`src/unnamed/part_011`): counts the supplied
results (deduplicating by composite key during a workspace scan) and
adds them to the accumulated counters; `totalImports` is increased by
the full length of `results`. -/
def updateStatsForFile (filePath : String) (results : List IImportResult)
    (isWorkspaceScan : Bool) (st : FPSession) : FPSession :=
  { stats :=
      { totalFiles := st.stats.totalFiles
        processedFiles := st.stats.processedFiles + (if isWorkspaceScan then 1 else 0)
        skippedFiles := st.stats.skippedFiles
        unchangedFiles := st.stats.unchangedFiles
        totalImports := st.stats.totalImports + results.length
        validImports := st.stats.validImports +
          (countLoop filePath isWorkspaceScan results st.processedImportsInSession).valid
        invalidImports := st.stats.invalidImports +
          (countLoop filePath isWorkspaceScan results st.processedImportsInSession).invalid
        frameworkImports := st.stats.frameworkImports +
          (countLoop filePath isWorkspaceScan results st.processedImportsInSession).framework
        projectImports := st.stats.projectImports +
          (countLoop filePath isWorkspaceScan results st.processedImportsInSession).project }
    processedImportsInSession :=
      (countLoop filePath isWorkspaceScan results st.processedImportsInSession).seen }

/-! ## Workspace scan with cooperative cancellation
(`doProcessWorkspace` in `src/fileProcessor.ts`)

The sequential embedding threads an explicit cancellation schedule:
`flagAt p` is the value the `AbortSignal.aborted` flag shows at a check
performed when `p` files have been fully processed so far (the scan is
a single logical worker, so checks are totally ordered by progress). -/

/-- One candidate file as the scan sees it: its path, whether
`hasFileChanged` holds, whether `shouldProcessFile` holds, and the
validation results its processing would produce. -/
structure FPFile where
  path : String
  changed : Bool
  supported : Bool
  results : List IImportResult
deriving Repr

/-- The file processor's mutable state: stats plus the processed-files
set. -/
structure FPState where
  stats : ScanStats
  processedFiles : List String
deriving Repr

/-- The empty file-processor state. -/
def emptyFPState : FPState := ⟨emptyStats, []⟩

/-- `processFile` (`src/fileProcessor.ts`): unsupported files return
without counting, unchanged files count as unchanged, and processed
files update the import counters and the processed set. -/
def processFileModel (st : FPState) (f : FPFile) : FPState :=
  if !f.supported then st
  else if !f.changed then
    { st with stats := { st.stats with unchangedFiles := st.stats.unchangedFiles + 1 } }
  else
    { stats := { st.stats with
        processedFiles := st.stats.processedFiles + 1
        totalImports := st.stats.totalImports + f.results.length
        validImports := st.stats.validImports
          + (f.results.filter (fun r => r.existsOnNpm)).length
        invalidImports := st.stats.invalidImports
          + (f.results.filter (fun r => !r.existsOnNpm)).length
        projectImports := st.stats.projectImports
          + (f.results.filter (fun r => r.isInProject)).length
        frameworkImports := st.stats.frameworkImports
          + (f.results.filter (fun r => r.isFramework)).length }
      processedFiles := setAdd st.processedFiles f.path }

/-- The per-file body of the batch (`batch.map(...)` in
`doProcessWorkspace`): skip already-processed and unsupported files as
skipped, then run `processFile`. -/
def scanFile (st : FPState) (f : FPFile) : FPState :=
  if setHas st.processedFiles f.path then
    { st with stats := { st.stats with skippedFiles := st.stats.skippedFiles + 1 } }
  else if !f.supported then
    { st with stats := { st.stats with skippedFiles := st.stats.skippedFiles + 1 } }
  else processFileModel st f

/-- One batch: the cancellation flag is read at the start of each
file's work; once it is observed no new file of the batch starts. -/
def processBatch (flagAt : Nat → Bool) (batch : List FPFile) (st : FPState) :
    FPState :=
  batch.foldl (fun acc f =>
    if flagAt acc.stats.processedFiles then acc else scanFile acc f) st

/-- Splits the candidate list into batches of `n` (the
`for (let i = 0; i < filesToProcess.length; i += batchSize)` loop). -/
def chunkListGo {α : Type} (n : Nat) : Nat → List α → List (List α)
  | 0, _ => []
  | _, [] => []
  | fuel + 1, x :: xs => ((x :: xs).take n) :: chunkListGo n fuel ((x :: xs).drop n)

/-- All batches of size `n`. -/
def chunkList {α : Type} (n : Nat) (l : List α) : List (List α) :=
  chunkListGo n l.length l

/-- The batch loop: the cancellation flag is read before each batch;
once observed, the loop breaks and returns the stats accumulated so
far. -/
def runBatches (flagAt : Nat → Bool) : List (List FPFile) → FPState → FPState
  | [], st => st
  | b :: rest, st =>
    if flagAt st.stats.processedFiles then st
    else runBatches flagAt rest (processBatch flagAt b st)

/-- `doProcessWorkspace` (`src/fileProcessor.ts`), reduced to its batch
loop over the already-enumerated candidate files. -/
def doProcessWorkspace (flagAt : Nat → Bool) (batchSize : Nat)
    (files : List FPFile) (st : FPState) : FPState :=
  runBatches flagAt (chunkList batchSize files) st

/-! ## Unused-dependency analysis (`findUnusedDependencies` /
`shouldSkipDependency`, `src/unnamed/part_011`) -/

/-- JS `String.prototype.startsWith` on Lean `String`s. -/
def jsStartsWithS (s p : String) : Bool := jsStartsWith (str s) (str p)

/-- A parsed `package.json` manifest (the four dependency classes). -/
structure Manifest where
  dependencies : List (String × String)
  devDependencies : List (String × String)
  peerDependencies : List (String × String)
  optionalDependencies : List (String × String)
deriving Repr

/-- JS object spread `{...a, ...b}` followed by `Object.entries`: the
keys of `a` in order (values overridden by `b` where present), then the
keys of `b` not in `a`. -/
def spreadMerge (a b : List (String × String)) : List (String × String) :=
  a.map (fun kv => (kv.1, ((aGet b kv.1).getD kv.2)))
    ++ b.filter (fun kv => (aGet a kv.1).isNone)

/-- The `commonDevTools` skip-list of `shouldSkipDependency`. -/
def commonDevTools : List String :=
  ["typescript", "eslint", "prettier", "jest", "mocha", "chai", "webpack",
   "babel", "rollup", "vite", "esbuild", "postcss", "tailwindcss",
   "autoprefixer", "nodemon", "ts-node", "husky", "lint-staged", "rimraf",
   "concurrently", "cross-env", "dotenv", "clsx", "classnames"]

/-- `shouldSkipDependency` (`src/unnamed/part_011`): type-declaration
packages by prefix, common dev tooling by substring. -/
def shouldSkipDependency (name : String) : Bool :=
  jsStartsWithS name "@types/"
    || commonDevTools.any (fun tool => jsIncludesS name tool)

/-- `findUnusedDependencies` (`src/unnamed/part_011`): for every
manifest, merge `dependencies` and `devDependencies` and report the
names that are not in the used-import set and not skip-listed; `used`
is the set of all `importName`s over every validated file
(`getAllImportsInWorkspace`). -/
def findUnusedDependencies (manifests : List Manifest) (used : List String) :
    List (String × String) :=
  manifests.foldl (fun acc m =>
    (spreadMerge m.dependencies m.devDependencies).foldl (fun acc2 kv =>
      if shouldSkipDependency kv.1 then acc2
      else if decide (kv.1 ∈ used) then acc2
      else aSet acc2 kv.1 kv.2) acc) []

/-! ## Concrete fixtures used by witnesses and counterexamples -/

/-- A transient abort error (fetch timeout). -/
def abortError : JsError := ⟨"AbortError", "The operation was aborted"⟩

/-- A sample registry JSON document. -/
def axiosData : NpmPackageData :=
  ⟨"axios", "1.0.0", some "http client", none, none, some "MIT", none,
   some ["http"], some "1.7.0"⟩

/-- A network environment that fails twice with a transient error and
succeeds from the third attempt on. -/
def envTwoFailuresThenOk : Nat → FetchEvent
  | 0 => .thrown abortError
  | 1 => .thrown abortError
  | _ => .response 200 "OK" axiosData (some 55)

/-- A network environment that always answers 404. -/
def envAlways404 : Nat → FetchEvent := fun _ => .response 404 "Not Found" axiosData none

/-- A provider state in which `axios` is a declared project dependency
but the package-info cache holds a fresh negative entry for it. -/
def stFreshNegCache : ProviderState :=
  ⟨[("axios", (none, 0))], [("axios", "1.0.0")]⟩


/-- The failing input for the CommonJS extraction: the documented
example of `_extractCommonJSRequires` itself. -/
def tC4 : Str := str "const foo = require(\"package-name\")"

/-- A document whose first line is an inline type import, whose second
line is a plain type import, and whose last line is malformed (so the
structural parse fails and the ES pass uses the regex fallback). -/
def tC9 : Str :=
  str "import { type A } from \"aaa\"\nimport type { B } from \"bbb\"\n%%"

/-- One validated-import record used by the statistics fixtures. -/
def axiosResult : IImportResult :=
  ⟨str "axios", 0, 10, true, none, .ES6, false, false⟩

/-- 100 distinct supported, changed candidate files. -/
def files100 : List FPFile :=
  (List.range 100).map (fun i => ⟨toString i, true, true, []⟩)

/-! ## Theorems -/

/-- Claim C1: a registry lookup whose fetch fails twice with a
transient error and succeeds on the third attempt returns the
successful metadata and sleeps exactly the two backoff delays 1000 ms
and 2000 ms (the second is the first multiplied by the backoff factor
2); a lookup that receives a 404 response is never retried and resolves
immediately — with no delays — to no metadata (`exists = false`,
`metadata = null`), which is what `getPackageInfo` caches and
returns. -/
theorem spec_C1 :
    (∀ (env : Nat → FetchEvent) (pp : List (String × String)) (name : String)
        (e1 e2 : JsError) (status : Nat) (stext : String) (data : NpmPackageData)
        (dls : Option Nat),
      env 0 = .thrown e1 → env 1 = .thrown e2 →
      fetchRetryCondition e1 = true → fetchRetryCondition e2 = true →
      env 2 = .response status stext data dls →
      200 ≤ status → status < 300 →
      fetchPackageInfoFromNpm pp name env =
        (some (mkPackageInfo data dls (isPackageInProject pp name)),
         [1000, 1000 * 2])) ∧
    (∀ (env : Nat → FetchEvent) (st : ProviderState) (name : String)
        (now cacheTimeout : Int) (stext : String) (data : NpmPackageData)
        (dls : Option Nat),
      env 0 = .response 404 stext data dls →
      aGet st.packageInfoCache name = none →
      aGet st.projectPackages name = none →
      fetchPackageInfoFromNpm st.projectPackages name env = (none, []) ∧
      getPackageInfo st name now cacheTimeout env =
        (none,
         { st with
             packageInfoCache := aSet st.packageInfoCache name (none, now) })) := by
  constructor
  · intro env pp name e1 e2 status stext data dls h0 h1 hc1 hc2 h2 hs1 hs2
    have h404 : ¬(status = 404) := by omega
    have hok : (decide (200 ≤ status) && decide (status < 300)) = true := by
      simp [hs1, hs2]
    simp [fetchPackageInfoFromNpm, retry, fetchRetryCount, fetchRetryDelay,
      retryGo, attemptFetch, h0, h1, h2, hc1, hc2, h404, hok]
  · intro env st name now cacheTimeout stext data dls h0 hcache hproj
    have hfetch : fetchPackageInfoFromNpm st.projectPackages name env = (none, []) := by
      simp [fetchPackageInfoFromNpm, retry, fetchRetryCount, fetchRetryDelay,
        retryGo, attemptFetch, h0]
    refine ⟨hfetch, ?_⟩
    simp [getPackageInfo, hcache, getPackageInfoUncached, hproj, hfetch]

/-- Witness for C1 at a concrete environment. -/
theorem spec_C1_witness :
    fetchPackageInfoFromNpm [] "axios" envTwoFailuresThenOk =
      (some (mkPackageInfo axiosData (some 55) (isPackageInProject [] "axios")),
       [1000, 1000 * 2]) ∧
    fetchPackageInfoFromNpm [] "left-pad" envAlways404 = (none, []) ∧
    getPackageInfo ⟨[], []⟩ "left-pad" 5 86400 envAlways404 =
      (none, { packageInfoCache := aSet [] "left-pad" (none, 5), projectPackages := [] }) := by
  refine ⟨?_, ?_⟩
  · exact spec_C1.1 envTwoFailuresThenOk [] "axios" abortError abortError
      200 "OK" axiosData (some 55) rfl rfl (by decide) (by decide) rfl
      (by decide) (by decide)
  · have h := spec_C1.2 envAlways404 ⟨[], []⟩ "left-pad" 5 86400
      "Not Found" axiosData none rfl rfl rfl
    exact ⟨h.1, h.2⟩

/-- Claim C3 counterexample: `axios` is in the project-membership index,
yet resolution returns `null` (`existsOnNpm = false`), because the
fresh negative cache entry is consulted before the project-membership
short-circuit. -/
theorem spec_C3_counterexample :
    isPackageInProject stFreshNegCache.projectPackages "axios" = true ∧
    (getPackageInfo stFreshNegCache "axios" 1 86400 envAlways404).1 = none := by
  decide

/-- Claim C3 (amended): for a package name declared in the
project-membership index with a nonempty version, PROVIDED the
package-info cache holds no fresh entry for that name, resolution never
fails: the result is always a metadata record, and when the
opportunistic registry fetch yields nothing the result is the synthetic
minimal record built from the declared version (downloads 0, license
"Unknown"), which is returned and cached. -/
theorem spec_C3 (st : ProviderState) (name v : String) (now cacheTimeout : Int)
    (env : Nat → FetchEvent)
    (hproj : aGet st.projectPackages name = some v) (hv : v ≠ "")
    (hstale : ∀ e, aGet st.packageInfoCache name = some e →
      cacheTimeout * 1000 ≤ now - e.2) :
    (getPackageInfo st name now cacheTimeout env).1.isSome = true ∧
    ((fetchPackageInfoFromNpm st.projectPackages name env).1 = none →
      getPackageInfo st name now cacheTimeout env =
        (some (minimalRecord name v),
         { st with
             packageInfoCache :=
               aSet st.packageInfoCache name (some (minimalRecord name v), now) }) ∧
      (minimalRecord name v).downloads = 0 ∧
      (minimalRecord name v).license = "Unknown") := by
  have huncached :
      getPackageInfo st name now cacheTimeout env =
        getPackageInfoUncached st name now env := by
    unfold getPackageInfo
    cases hc : aGet st.packageInfoCache name with
    | none => rfl
    | some e =>
      have := hstale e hc
      have hnotfresh : ¬(now - e.2 < cacheTimeout * 1000) := by omega
      simp [hnotfresh]
  rw [huncached]
  unfold getPackageInfoUncached
  rw [hproj]
  simp only [hv, if_true, ne_eq, not_false_iff]
  cases hf : (fetchPackageInfoFromNpm st.projectPackages name env).1 with
  | some npmInfo => simp [hf]
  | none => simp [hf, minimalRecord]

/-- Witness for C3 at a concrete state and environment. -/
theorem spec_C3_witness :
    (getPackageInfo ⟨[], [("axios", "1.0.0")]⟩ "axios" 1 86400 envAlways404).1.isSome
      = true ∧
    getPackageInfo ⟨[], [("axios", "1.0.0")]⟩ "axios" 1 86400 envAlways404 =
      (some (minimalRecord "axios" "1.0.0"),
       { packageInfoCache := aSet [] "axios" (some (minimalRecord "axios" "1.0.0"), 1),
         projectPackages := [("axios", "1.0.0")] }) := by
  have h := spec_C3 ⟨[], [("axios", "1.0.0")]⟩ "axios" "1.0.0" 1 86400 envAlways404
    (by decide) (by decide) (by intro e he; cases he)
  exact ⟨h.1, (h.2 (by decide)).1⟩

lemma splitOnChar_no_sep (c : Char) (s : Str) (h : s.contains c = false) :
    splitOnChar c s = [s] := by
  induction s with
  | nil => rfl
  | cons x xs ih =>
    simp only [List.contains_cons, Bool.or_eq_false_iff] at h
    rw [splitOnChar, ih h.2]
    have hx : ¬(x = c) := by
      intro hxc
      subst hxc
      simp [beq_self_eq_true] at h
    simp [hx]

lemma splitOnChar_ne_nil (c : Char) (s : Str) : splitOnChar c s ≠ [] := by
  induction s with
  | nil => simp [splitOnChar]
  | cons x xs ih =>
    rw [splitOnChar]
    cases hs : splitOnChar c xs with
    | nil => exact absurd hs ih
    | cons y ys =>
      by_cases hx : x = c <;> simp [hx]

lemma splitOnChar_append_sep (c : Char) (x t : Str) (h : x.contains c = false) :
    splitOnChar c (x ++ c :: t) = x :: splitOnChar c t := by
  induction x with
  | nil =>
    cases ht : splitOnChar c t with
    | nil => exact absurd ht (splitOnChar_ne_nil c t)
    | cons y ys => simp [splitOnChar, ht]
  | cons a as ih =>
    simp only [List.contains_cons, Bool.or_eq_false_iff] at h
    have ha : ¬(a = c) := by
      intro hac
      subst hac
      simp [beq_self_eq_true] at h
    rw [List.cons_append, splitOnChar, ih h.2]
    simp [ha]

lemma splitOnChar_joinSegs (c : Char) (segs : List Str) (hne : segs ≠ [])
    (h : ∀ seg ∈ segs, seg.contains c = false) :
    splitOnChar c (joinSegs c segs) = segs := by
  induction segs with
  | nil => exact absurd rfl hne
  | cons x rest ih =>
    cases rest with
    | nil => exact splitOnChar_no_sep c x (h x (by simp))
    | cons y ys =>
      rw [joinSegs, splitOnChar_append_sep c x _ (h x (by simp))]
      rw [ih (by simp) (fun seg hseg => h seg (List.mem_cons_of_mem x hseg))]

lemma common_alias_not_at : ∀ a ∈ COMMON_PATH_ALIASES, a.head? ≠ some '@' ∧ a ≠ [] := by
  decide

lemma alias_local (ca : List Str) (s : Str)
    (h : ∃ a ∈ COMMON_PATH_ALIASES ++ ca, jsStartsWith s a = true) :
    isLocalImport ca s = true := by
  obtain ⟨a, ha, hpre⟩ := h
  unfold isLocalImport
  by_cases h1 : (jsStartsWith s (str ".") || jsStartsWith s (str "/")) = true
  · simp [h1]
  · rw [if_neg (by simp_all)]
    by_cases h2 : matchesScopedAlias s = true
    · rw [if_pos h2]
      obtain ⟨d, u, hs⟩ : ∃ d u, s = '@' :: d :: u := by
        match s with
        | [] => simp [matchesScopedAlias] at h2
        | [c] => simp [matchesScopedAlias] at h2
        | c :: d :: u =>
          simp only [matchesScopedAlias, Bool.and_eq_true, decide_eq_true_eq] at h2
          exact ⟨d, u, by rw [h2.1]⟩
      subst hs
      rcases List.mem_append.1 ha with hca | hcc
      · obtain ⟨hhead, hne⟩ := common_alias_not_at a hca
        cases a with
        | nil => exact absurd rfl hne
        | cons b bs =>
          simp only [jsStartsWith, List.isPrefixOf, Bool.and_eq_true, beq_iff_eq] at hpre
          exact absurd (by rw [hpre.1]; rfl) hhead
      · have hany : ca.any (fun a => jsStartsWith ('@' :: d :: u) a) = true :=
          List.any_eq_true.2 ⟨a, hcc, hpre⟩
        simp [hany]
    · rw [if_neg h2]
      exact List.any_eq_true.2 ⟨a, ha, hpre⟩

lemma bare_scope_local (ca : List Str) (s : Str)
    (h : matchesScopedAlias s = true) (hns : jsIncludesChar s '/' = false) :
    isLocalImport ca s = true := by
  obtain ⟨d, u, hs⟩ : ∃ d u, s = '@' :: d :: u := by
    match s with
    | [] => simp [matchesScopedAlias] at h
    | [c] => simp [matchesScopedAlias] at h
    | c :: d :: u =>
      simp only [matchesScopedAlias, Bool.and_eq_true, decide_eq_true_eq] at h
      exact ⟨d, u, by rw [h.1]⟩
  subst hs
  unfold isLocalImport
  rw [if_neg (by simp [jsStartsWith, str, List.isPrefixOf]), if_pos h, hns]
  simp

lemma scoped_root (c : Char) (tsc pkg : Str) (rest : List Str)
    (hsegs : ∀ seg ∈ ('@' :: c :: tsc) :: pkg :: rest, seg.contains '/' = false) :
    extractPackageName (joinSegs '/' (('@' :: c :: tsc) :: pkg :: rest)) =
      ('@' :: c :: tsc) ++ '/' :: pkg := by
  have hc : ¬(c = '/') := by
    have := hsegs ('@' :: c :: tsc) (by simp)
    intro hc
    subst hc
    simp at this
  have hsplit : splitOnChar '/' (joinSegs '/' (('@' :: c :: tsc) :: pkg :: rest)) =
      ('@' :: c :: tsc) :: pkg :: rest :=
    splitOnChar_joinSegs '/' _ (by simp) hsegs
  have hc2 : ¬('/' = c) := fun h => hc h.symm
  unfold extractPackageName
  rw [hsplit]
  rw [if_pos ?_]
  · simp
  · rw [joinSegs]
    simp [jsStartsWith, str, List.isPrefixOf, hc2]

lemma unscoped_root (p : Str) (rest : List Str)
    (hp : p.head? ≠ some '@')
    (hsegs : ∀ seg ∈ p :: rest, seg.contains '/' = false) :
    extractPackageName (joinSegs '/' (p :: rest)) = p := by
  have hsplit : splitOnChar '/' (joinSegs '/' (p :: rest)) = p :: rest :=
    splitOnChar_joinSegs '/' _ (by simp) hsegs
  have hat : jsStartsWith (joinSegs '/' (p :: rest)) (str "@") = false := by
    cases p with
    | nil =>
      cases rest with
      | nil => simp [joinSegs, jsStartsWith, str, List.isPrefixOf]
      | cons y ys => simp [joinSegs, jsStartsWith, str, List.isPrefixOf]
    | cons b bs =>
      have hb : ¬('@' = b) := by
        intro hb
        exact hp (by rw [← hb]; rfl)
      cases rest with
      | nil => simp [joinSegs, jsStartsWith, str, List.isPrefixOf, hb]
      | cons y ys => simp [joinSegs, jsStartsWith, str, List.isPrefixOf, hb]
  unfold extractPackageName
  rw [hat]
  simp [hsplit]

lemma scoped_external (ca : List Str) (c : Char) (tsc pkg : Str) (rest : List Str)
    (hword : aliasWordChar c = true)
    (hsegs : ∀ seg ∈ ('@' :: c :: tsc) :: pkg :: rest, seg.contains '/' = false)
    (halias : ¬(∃ a ∈ ca,
      jsStartsWith (joinSegs '/' (('@' :: c :: tsc) :: pkg :: rest)) a = true)) :
    classify ca (joinSegs '/' (('@' :: c :: tsc) :: pkg :: rest)) =
      .External (('@' :: c :: tsc) ++ '/' :: pkg) := by
  have hs : joinSegs '/' (('@' :: c :: tsc) :: pkg :: rest) =
      '@' :: c :: (tsc ++ '/' :: joinSegs '/' (pkg :: rest)) := by
    rw [joinSegs]
    simp
  have hlocal : isLocalImport ca (joinSegs '/' (('@' :: c :: tsc) :: pkg :: rest)) = false := by
    unfold isLocalImport
    rw [if_neg (by rw [hs]; simp [jsStartsWith, str, List.isPrefixOf])]
    rw [if_pos (by rw [hs]; simp [matchesScopedAlias, hword])]
    rw [if_pos ?_]
    have hinc : jsIncludesChar (joinSegs '/' (('@' :: c :: tsc) :: pkg :: rest)) '/' = true := by
      rw [hs]
      simp [jsIncludesChar]
    have hany : (ca.any (fun a =>
        jsStartsWith (joinSegs '/' (('@' :: c :: tsc) :: pkg :: rest)) a)) = false := by
      rw [← Bool.not_eq_true]
      intro hx
      exact halias (List.any_eq_true.1 hx)
    rw [hinc, hany]
    rfl
  rw [classify, hlocal]
  simp
  exact scoped_root c tsc pkg rest hsegs

lemma unscoped_external (ca : List Str) (b : Char) (bs : Str) (rest : List Str)
    (hdot : ¬(b = '.')) (hslash : ¬(b = '/')) (hat : ¬(b = '@'))
    (hsegs : ∀ seg ∈ (b :: bs) :: rest, seg.contains '/' = false)
    (halias : ¬(∃ a ∈ COMMON_PATH_ALIASES ++ ca,
      jsStartsWith (joinSegs '/' ((b :: bs) :: rest)) a = true)) :
    classify ca (joinSegs '/' ((b :: bs) :: rest)) = .External (b :: bs) := by
  obtain ⟨t, hs⟩ : ∃ t, joinSegs '/' ((b :: bs) :: rest) = b :: t := by
    cases rest with
    | nil => exact ⟨bs, rfl⟩
    | cons y ys => exact ⟨bs ++ '/' :: joinSegs '/' (y :: ys), by rw [joinSegs]; simp⟩
  have hlocal : isLocalImport ca (joinSegs '/' ((b :: bs) :: rest)) = false := by
    unfold isLocalImport
    rw [if_neg ?_]
    rw [if_neg ?_]
    · rw [← Bool.not_eq_true]
      intro hx
      exact halias (List.any_eq_true.1 hx)
    · rw [hs]
      cases t with
      | nil => simp [matchesScopedAlias]
      | cons c2 t2 => simp [matchesScopedAlias, hat]
    · rw [hs]
      simp [jsStartsWith, str, List.isPrefixOf,
        show ¬('.' = b) from fun h => hdot h.symm,
        show ¬('/' = b) from fun h => hslash h.symm]
  rw [classify, hlocal]
  simp
  exact unscoped_root (b :: bs) rest (by simp [hat]) hsegs

/-- Claim C5: classification is total and exclusive (every specifier is
exactly one of Local or External); a specifier is Local if it begins
with a dot or a slash, has a default or configured alias as a prefix,
or is a bare scope-style alias with no slash; a scoped deep specifier
normalizes to its first two path segments and an unscoped deep
specifier to its first segment; a genuine scoped deep specifier (no
configured alias prefix) is External with root its first two path
segments, and an unscoped deep specifier (no alias prefix, not
dot/slash/scope-initial) is External with root its first segment; and
the specification's concrete examples hold. -/
theorem spec_C5 :
    (∀ (ca : List Str) (s : Str),
      (classify ca s = .Local ∨ ∃ r, classify ca s = .External r) ∧
      ¬(classify ca s = .Local ∧ ∃ r, classify ca s = .External r)) ∧
    (∀ (ca : List Str) (s : Str), jsStartsWith s (str ".") = true →
      classify ca s = .Local) ∧
    (∀ (ca : List Str) (s : Str), jsStartsWith s (str "/") = true →
      classify ca s = .Local) ∧
    (∀ (ca : List Str) (s : Str),
      (∃ a ∈ COMMON_PATH_ALIASES ++ ca, jsStartsWith s a = true) →
      classify ca s = .Local) ∧
    (∀ (ca : List Str) (s : Str), matchesScopedAlias s = true →
      jsIncludesChar s '/' = false → classify ca s = .Local) ∧
    (∀ (c : Char) (tsc pkg : Str) (rest : List Str),
      (∀ seg ∈ ('@' :: c :: tsc) :: pkg :: rest, seg.contains '/' = false) →
      extractPackageName (joinSegs '/' (('@' :: c :: tsc) :: pkg :: rest)) =
        ('@' :: c :: tsc) ++ '/' :: pkg) ∧
    (∀ (p : Str) (rest : List Str), p.head? ≠ some '@' →
      (∀ seg ∈ p :: rest, seg.contains '/' = false) →
      extractPackageName (joinSegs '/' (p :: rest)) = p) ∧
    (∀ (ca : List Str) (c : Char) (tsc pkg : Str) (rest : List Str),
      aliasWordChar c = true →
      (∀ seg ∈ ('@' :: c :: tsc) :: pkg :: rest, seg.contains '/' = false) →
      ¬(∃ a ∈ ca,
        jsStartsWith (joinSegs '/' (('@' :: c :: tsc) :: pkg :: rest)) a = true) →
      classify ca (joinSegs '/' (('@' :: c :: tsc) :: pkg :: rest)) =
        .External (('@' :: c :: tsc) ++ '/' :: pkg)) ∧
    (∀ (ca : List Str) (b : Char) (bs : Str) (rest : List Str),
      ¬(b = '.') → ¬(b = '/') → ¬(b = '@') →
      (∀ seg ∈ (b :: bs) :: rest, seg.contains '/' = false) →
      ¬(∃ a ∈ COMMON_PATH_ALIASES ++ ca,
        jsStartsWith (joinSegs '/' ((b :: bs) :: rest)) a = true) →
      classify ca (joinSegs '/' ((b :: bs) :: rest)) = .External (b :: bs)) ∧
    (classify [] (str "./foo") = .Local ∧
     classify [] (str "@scope/pkg") = .External (str "@scope/pkg") ∧
     classify [] (str "lodash/get") = .External (str "lodash") ∧
     classify [] (str "~/x") = .Local ∧
     extractPackageName (str "@babel/core/lib/x") = str "@babel/core" ∧
     extractPackageName (str "axios/dist/node") = str "axios") := by
  refine ⟨?_, ?_, ?_, ?_, ?_, scoped_root, unscoped_root, scoped_external, unscoped_external, by decide⟩
  · intro ca s
    by_cases h : isLocalImport ca s = true
    · constructor
      · exact Or.inl (by simp [classify, h])
      · intro ⟨_, r, hr⟩
        simp [classify, h] at hr
    · constructor
      · exact Or.inr ⟨extractPackageName s, by simp [classify, h]⟩
      · intro ⟨hl, _⟩
        simp [classify, h] at hl
  · intro ca s hdot
    have hl : isLocalImport ca s = true := by
      unfold isLocalImport
      simp [hdot]
    simp [classify, hl]
  · intro ca s hslash
    have hl : isLocalImport ca s = true := by
      unfold isLocalImport
      simp [hslash]
    simp [classify, hl]
  · intro ca s hex
    simp [classify, alias_local ca s hex]
  · intro ca s h1 h2
    simp [classify, bare_scope_local ca s h1 h2]

/-- Witness for C5: a default-alias specifier classified Local, and a
scoped deep specifier normalized to its first two segments. -/
theorem spec_C5_witness :
    classify [] (str "components/button") = .Local ∧
    extractPackageName (joinSegs '/' [str "@babel", str "core", str "lib"]) =
      str "@babel" ++ '/' :: str "core" :=
  ⟨spec_C5.2.2.2.1 [] (str "components/button")
      ⟨str "components/", by decide, by decide⟩,
   spec_C5.2.2.2.2.2.1 'b' (str "abel") (str "core") [str "lib"] (by decide)⟩

set_option maxRecDepth 10000

/-- Claim C4 (code bug): the CommonJS require extraction finds nothing,
even on the documented example of `_extractCommonJSRequires` itself and
on a bare dynamic call, because both require regexes contain `$$` (two
end-of-input assertions) where escaped parentheses were intended, so
they demand the end of input in mid-pattern and can never match; a
document whose only import is a require therefore reports zero
occurrences. -/
theorem spec_C4 :
    extractCommonJSRequires [] tC4 = [] ∧
    extractCommonJSRequires [] (str "require(\"lodash\")") = [] ∧
    extractImportsFromDocument [] (some []) tC4 = [] := by decide

lemma validateImports_cons (ig ca : List Str) (resolve : Str → Bool × Option PackageInfo)
    (inP : Str → Bool) (i : IImportData) (rest : List IImportData) :
    validateImports ig ca resolve inP (i :: rest) =
      if isLocalImport ca i.importName then validateImports ig ca resolve inP rest
      else enrichImport ig resolve inP i :: validateImports ig ca resolve inP rest := by
  by_cases h : isLocalImport ca i.importName <;> simp [validateImports, h]

lemma validateImports_eq (ig ca : List Str) (resolve : Str → Bool × Option PackageInfo)
    (inP : Str → Bool) (imports : List IImportData) :
    validateImports ig ca resolve inP imports =
      (imports.filter (fun i => !(isLocalImport ca i.importName))).map
        (enrichImport ig resolve inP) := by
  induction imports with
  | nil => rfl
  | cons i rest ih =>
    rw [validateImports_cons]
    by_cases h : isLocalImport ca i.importName <;> simp [List.filter, h, ih]

/-- Claim C9 counterexample: on `tC9` the validated result vector is
not ordered by source position — the plain type import at offset 29 is
emitted before the inline type import at offset 0, because the
type-import passes run after the ES pass and the plain-type pass runs
before the inline-type pass. -/
theorem spec_C9_counterexample :
    ¬ List.Pairwise (fun a b => a.rangeStart ≤ b.rangeStart)
      (validateImports [] [] (fun _ => (true, none)) (fun _ => false)
        (extractImportsFromDocument [] none tC9)) := by decide

/-- Claim C9 (amended): classification and resolution preserve
parse-emission order exactly (the result vector is the emission
sequence with local specifiers removed, enriched in place), but the
emission sequence is grouped by syntactic pass — ES imports, then plain
type imports, then inline type imports, then requires — as the concrete
evaluation shows, so the vector need not follow global source-occurrence
order. -/
theorem spec_C9 :
    (∀ (ig ca : List Str) (resolve : Str → Bool × Option PackageInfo)
        (inP : Str → Bool) (imports : List IImportData),
      validateImports ig ca resolve inP imports =
        (imports.filter (fun i => !(isLocalImport ca i.importName))).map
          (enrichImport ig resolve inP)) ∧
    (extractImportsFromDocument [] none tC9).map
        (fun i => (i.importName, i.rangeStart, i.importType)) =
      [(str "aaa", 0, .ES6), (str "bbb", 29, .TYPE), (str "aaa", 0, .TYPE)] := by
  exact ⟨validateImports_eq, by decide⟩

lemma setHas_setAdd_of (s : List String) (k k2 : String) (h : setHas s k = true) :
    setHas (setAdd s k2) k = true := by
  unfold setAdd
  split
  · exact h
  · simp only [setHas, decide_eq_true_eq] at *
    exact List.mem_append_left _ h

lemma setHas_setAdd_self (s : List String) (k : String) :
    setHas (setAdd s k) k = true := by
  unfold setAdd
  split
  · assumption
  · simp [setHas]

lemma countLoop_seen_mono (fp : String) (ws : Bool) (rs : List IImportResult) :
    ∀ (seen : List String) (k : String), setHas seen k = true →
      setHas (countLoop fp ws rs seen).seen k = true := by
  induction rs with
  | nil => intro seen k h; exact h
  | cons r rest ih =>
    intro seen k h
    rw [countLoop]
    split
    · exact ih seen k h
    · exact ih (setAdd seen (importKeyOf fp r)) k (setHas_setAdd_of _ _ _ h)

lemma countLoop_key_seen (fp : String) (ws : Bool) (rs : List IImportResult) :
    ∀ (seen : List String) (r : IImportResult), r ∈ rs →
      setHas (countLoop fp ws rs seen).seen (importKeyOf fp r) = true := by
  induction rs with
  | nil => intro seen r h; cases h
  | cons r0 rest ih =>
    intro seen r h
    rw [countLoop]
    rcases List.mem_cons.1 h with hr | hr
    · subst hr
      split
      · rename_i hcond
        have hhas : setHas seen (importKeyOf fp r) = true := by
          simp only [Bool.and_eq_true] at hcond
          exact hcond.2
        exact countLoop_seen_mono fp ws rest seen _ hhas
      · exact countLoop_seen_mono fp ws rest _ _ (setHas_setAdd_self _ _)
    · split
      · exact ih seen r hr
      · exact ih _ r hr

lemma countLoop_all_seen (fp : String) (rs : List IImportResult) :
    ∀ (seen : List String), (∀ r ∈ rs, setHas seen (importKeyOf fp r) = true) →
      countLoop fp true rs seen = ⟨0, 0, 0, 0, seen⟩ := by
  induction rs with
  | nil => intro seen _; rfl
  | cons r rest ih =>
    intro seen h
    rw [countLoop]
    have hr : setHas seen (importKeyOf fp r) = true := h r (by simp)
    rw [if_pos (by simp [hr])]
    exact ih seen (fun r2 h2 => h r2 (List.mem_cons_of_mem r h2))

/-- Claim C2 (amended): during workspace-scan invocations, a
(filePath, importName, importType) tuple contributes at most once to
`validImports`, `invalidImports`, `frameworkImports` and
`projectImports` (a repeated invocation with the same results leaves
those four counters unchanged); `totalImports`, however, is increased
by the full length of the supplied results vector on every invocation,
with no per-tuple deduplication. -/
theorem spec_C2 (st : FPSession) (filePath : String) (results : List IImportResult) :
    (updateStatsForFile filePath results true
        (updateStatsForFile filePath results true st)).stats.validImports =
      (updateStatsForFile filePath results true st).stats.validImports ∧
    (updateStatsForFile filePath results true
        (updateStatsForFile filePath results true st)).stats.invalidImports =
      (updateStatsForFile filePath results true st).stats.invalidImports ∧
    (updateStatsForFile filePath results true
        (updateStatsForFile filePath results true st)).stats.frameworkImports =
      (updateStatsForFile filePath results true st).stats.frameworkImports ∧
    (updateStatsForFile filePath results true
        (updateStatsForFile filePath results true st)).stats.projectImports =
      (updateStatsForFile filePath results true st).stats.projectImports ∧
    (updateStatsForFile filePath results true
        (updateStatsForFile filePath results true st)).stats.totalImports =
      (updateStatsForFile filePath results true st).stats.totalImports +
        results.length := by
  have hseen : ∀ r ∈ results,
      setHas (updateStatsForFile filePath results true st).processedImportsInSession
        (importKeyOf filePath r) = true := by
    intro r hr
    unfold updateStatsForFile
    exact countLoop_key_seen filePath true results st.processedImportsInSession r hr
  have hloop : countLoop filePath true results
      (updateStatsForFile filePath results true st).processedImportsInSession =
      ⟨0, 0, 0, 0, (updateStatsForFile filePath results true st).processedImportsInSession⟩ :=
    countLoop_all_seen filePath results _ hseen
  refine ⟨?_, ?_, ?_, ?_, ?_⟩
  all_goals conv_lhs => rw [updateStatsForFile]
  all_goals rw [hloop]
  all_goals simp

/-- Claim C2 counterexample: invoking the statistics-update routine
twice (workspace-scan mode) with a results vector holding one tuple
makes `totalImports` reach 2 — the tuple contributed twice to
`totalImports`, while `validImports` was deduplicated to 1. -/
theorem spec_C2_counterexample :
    (updateStatsForFile "f" [axiosResult] true
      (updateStatsForFile "f" [axiosResult] true ⟨emptyStats, []⟩)).stats.totalImports = 2 ∧
    (updateStatsForFile "f" [axiosResult] true
      (updateStatsForFile "f" [axiosResult] true ⟨emptyStats, []⟩)).stats.validImports = 1 := by
  decide


lemma aGet_aSet_self {α β : Type} [DecidableEq α] (l : List (α × β)) (k : α) (v : β) :
    aGet (aSet l k v) k = some v := by
  induction l with
  | nil => simp [aSet, aGet]
  | cons kv rest ih =>
    obtain ⟨k2, w⟩ := kv
    by_cases h : k2 = k <;> simp [aSet, aGet, h, ih]

/-- Claim C6: under a fixed source text and fixed registry state
(`pipeline` is a function), a first `validateDocument` call on an
uncached document runs the pipeline and a second call within the cache
window returns the identical cached vector verbatim without touching
the state; a document-cache entry is treated as present exactly when
`now - timestamp < cacheTimeoutSeconds * 1000`, and an expired entry
behaves as a miss that triggers a fresh resolution and re-store. -/
theorem spec_C6 :
    (∀ (st : ValidatorState) (uri : String) (text : Str)
        (now1 now2 cacheTimeout : Int) (pipeline : Str → List IImportResult),
      aGet st.documentImportsCache uri = none →
      now2 - now1 < cacheTimeout * 1000 →
      (validateDocument st uri text now1 cacheTimeout pipeline).1 = pipeline text ∧
      (validateDocument (validateDocument st uri text now1 cacheTimeout pipeline).2
          uri text now2 cacheTimeout pipeline).1 =
        (validateDocument st uri text now1 cacheTimeout pipeline).1 ∧
      (validateDocument (validateDocument st uri text now1 cacheTimeout pipeline).2
          uri text now2 cacheTimeout pipeline).2 =
        (validateDocument st uri text now1 cacheTimeout pipeline).2) ∧
    (∀ (st : ValidatorState) (uri : String) (now cacheTimeout : Int),
      isCacheValid st uri now cacheTimeout = true ↔
        ∃ c, aGet st.documentImportsCache uri = some c ∧
          now - c.timestamp < cacheTimeout * 1000) ∧
    (∀ (st : ValidatorState) (uri : String) (text : Str) (now cacheTimeout : Int)
        (pipeline : Str → List IImportResult) (c : IImportCache),
      aGet st.documentImportsCache uri = some c →
      ¬(now - c.timestamp < cacheTimeout * 1000) →
      validateDocument st uri text now cacheTimeout pipeline =
        (pipeline text, ⟨aSet st.documentImportsCache uri ⟨pipeline text, now⟩⟩)) := by
  refine ⟨?_, ?_, ?_⟩
  · intro st uri text now1 now2 cacheTimeout pipeline hnone hfresh
    have h1 : validateDocument st uri text now1 cacheTimeout pipeline =
        (pipeline text, ⟨aSet st.documentImportsCache uri ⟨pipeline text, now1⟩⟩) := by
      simp [validateDocument, hnone]
    have h2 : aGet (aSet st.documentImportsCache uri
        (⟨pipeline text, now1⟩ : IImportCache)) uri = some ⟨pipeline text, now1⟩ :=
      aGet_aSet_self _ _ _
    rw [h1]
    simp [validateDocument, h2, hfresh]
  · intro st uri now cacheTimeout
    unfold isCacheValid
    cases h : aGet st.documentImportsCache uri with
    | none => simp
    | some c => simp [h]
  · intro st uri text now cacheTimeout pipeline c hc hstale
    simp [validateDocument, hc, hstale]

/-- Witness for C6 on a concrete document, with the pipeline
instantiated to the real extraction-and-validation composition. -/
theorem spec_C6_witness :
    (validateDocument ⟨[]⟩ "file:a.ts" tC9 1000 86400
        (fun t => validateImports [] [] (fun _ => (true, none)) (fun _ => false)
          (extractImportsFromDocument [] none t))).1 =
      validateImports [] [] (fun _ => (true, none)) (fun _ => false)
        (extractImportsFromDocument [] none tC9) ∧
    (validateDocument (validateDocument ⟨[]⟩ "file:a.ts" tC9 1000 86400
        (fun t => validateImports [] [] (fun _ => (true, none)) (fun _ => false)
          (extractImportsFromDocument [] none t))).2 "file:a.ts" tC9 2000 86400
        (fun t => validateImports [] [] (fun _ => (true, none)) (fun _ => false)
          (extractImportsFromDocument [] none t))).1 =
      (validateDocument ⟨[]⟩ "file:a.ts" tC9 1000 86400
        (fun t => validateImports [] [] (fun _ => (true, none)) (fun _ => false)
          (extractImportsFromDocument [] none t))).1 := by
  have h := spec_C6.1 ⟨[]⟩ "file:a.ts" tC9 1000 2000 86400
    (fun t => validateImports [] [] (fun _ => (true, none)) (fun _ => false)
      (extractImportsFromDocument [] none t)) rfl (by decide)
  exact ⟨h.1, h.2.1⟩


lemma scanFile_processed_le (st : FPState) (f : FPFile) :
    (scanFile st f).stats.processedFiles ≤ st.stats.processedFiles + 1 := by
  unfold scanFile processFileModel
  split
  · simp
  · split
    · simp
    · split
      · simp
      · simp

lemma processBatch_le (c : Nat) (batch : List FPFile) :
    ∀ (st : FPState), st.stats.processedFiles ≤ c →
      (processBatch (fun p => decide (c ≤ p)) batch st).stats.processedFiles ≤ c := by
  induction batch with
  | nil => intro st h; exact h
  | cons f rest ih =>
    intro st h
    have hstep : processBatch (fun p => decide (c ≤ p)) (f :: rest) st =
        processBatch (fun p => decide (c ≤ p)) rest
          (if decide (c ≤ st.stats.processedFiles) then st else scanFile st f) := by
      simp [processBatch]
    rw [hstep]
    by_cases hc : c ≤ st.stats.processedFiles
    · have : st.stats.processedFiles = c := Nat.le_antisymm h hc
      simp [hc]
      exact ih st h
    · have hlt : st.stats.processedFiles < c := Nat.lt_of_le_of_ne h (by omega)
      simp [hc]
      exact ih _ (Nat.le_trans (scanFile_processed_le st f) (by omega))

lemma runBatches_le (c : Nat) (batches : List (List FPFile)) :
    ∀ (st : FPState), st.stats.processedFiles ≤ c →
      (runBatches (fun p => decide (c ≤ p)) batches st).stats.processedFiles ≤ c := by
  induction batches with
  | nil => intro st h; exact h
  | cons b rest ih =>
    intro st h
    rw [runBatches]
    split
    · exact h
    · exact ih _ (processBatch_le c b st h)

/-- Claim C7: once the cancellation flag is observed (it is read before
each batch and before each individual file's work), the scan admits no
new work — with a flag that turns true from the moment `c` files are
processed, the final processed count never exceeds `c`; concretely, a
scan over 100 files with batch size 20 cancelled at the completion of
the first batch processes exactly 20 files, which lies in [20, 40) and
is a partial result, never all 100. -/
theorem spec_C7 :
    (∀ (files : List FPFile) (batchSize c : Nat) (st : FPState),
      st.stats.processedFiles ≤ c →
      (doProcessWorkspace (fun p => decide (c ≤ p)) batchSize files st).stats.processedFiles
        ≤ c) ∧
    ((doProcessWorkspace (fun p => decide (20 ≤ p)) 20 files100
        emptyFPState).stats.processedFiles = 20 ∧
      20 ≤ 20 ∧ 20 < 40 ∧
      (doProcessWorkspace (fun p => decide (20 ≤ p)) 20 files100
        emptyFPState).stats.processedFiles < 100) := by
  constructor
  · intro files batchSize c st h
    exact runBatches_le c (chunkList batchSize files) st h
  · refine ⟨?_, by omega, by omega, ?_⟩ <;> decide


lemma aGet_isSome_iff {α β : Type} [DecidableEq α] (l : List (α × β)) (k : α) :
    (aGet l k).isSome = true ↔ ∃ kv ∈ l, kv.1 = k := by
  induction l with
  | nil => simp [aGet]
  | cons kv rest ih =>
    obtain ⟨k2, w⟩ := kv
    by_cases h : k2 = k
    · subst h
      simp [aGet]
    · rw [List.exists_mem_cons_iff]
      simp only [aGet, if_neg h, ih]
      constructor
      · exact Or.inr
      · intro hh
        rcases hh with hh | hh
        · exact absurd hh h
        · exact hh

lemma aGet_aSet_isSome {α β : Type} [DecidableEq α] (l : List (α × β)) (k key : α) (v : β) :
    (aGet (aSet l k v) key).isSome = true ↔ key = k ∨ (aGet l key).isSome = true := by
  induction l with
  | nil =>
    by_cases h : k = key
    · simp [aSet, aGet, h]
    · simp [aSet, aGet, h]
      exact fun he => h he.symm
  | cons kv rest ih =>
    obtain ⟨k2, w⟩ := kv
    by_cases h : k2 = k
    · subst h
      by_cases h2 : k2 = key
      · subst h2
        simp [aSet, aGet]
      · simp [aSet, aGet, h2, show ¬(key = k2) from fun he => h2 he.symm]
    · by_cases h2 : k2 = key
      · subst h2
        simp [aSet, aGet, h]
      · simp [aSet, aGet, h, h2, ih]

lemma spreadMerge_key (a b : List (String × String)) (name : String) :
    (∃ kv ∈ spreadMerge a b, kv.1 = name) ↔
      (∃ kv ∈ a, kv.1 = name) ∨ (∃ kv ∈ b, kv.1 = name) := by
  unfold spreadMerge
  constructor
  · intro ⟨kv, hmem, hk⟩
    rcases List.mem_append.1 hmem with hm | hm
    · obtain ⟨kv2, hkv2, he⟩ := List.mem_map.1 hm
      exact Or.inl ⟨kv2, hkv2, by rw [← hk, ← he]⟩
    · exact Or.inr ⟨kv, (List.mem_filter.1 hm).1, hk⟩
  · intro h
    rcases h with ⟨kv, hmem, hk⟩ | ⟨kv, hmem, hk⟩
    · exact ⟨(kv.1, ((aGet b kv.1).getD kv.2)), List.mem_append_left _
        (List.mem_map.2 ⟨kv, hmem, rfl⟩), hk⟩
    · by_cases ha : (aGet a name).isSome = true
      · obtain ⟨kv2, hkv2, hk2⟩ := (aGet_isSome_iff a name).1 ha
        exact ⟨(kv2.1, ((aGet b kv2.1).getD kv2.2)), List.mem_append_left _
          (List.mem_map.2 ⟨kv2, hkv2, rfl⟩), hk2⟩
      · refine ⟨kv, List.mem_append_right _ (List.mem_filter.2 ⟨hmem, ?_⟩), hk⟩
        rw [hk, Option.isNone_iff_eq_none, ← Option.not_isSome_iff_eq_none]
        simpa using ha

lemma innerFold_key (used : List String) (name : String)
    (deps : List (String × String)) :
    ∀ (acc : List (String × String)),
      (aGet (deps.foldl (fun acc2 kv =>
          if shouldSkipDependency kv.1 then acc2
          else if decide (kv.1 ∈ used) then acc2
          else aSet acc2 kv.1 kv.2) acc) name).isSome = true ↔
        ((aGet acc name).isSome = true ∨
          ((∃ kv ∈ deps, kv.1 = name) ∧ shouldSkipDependency name = false ∧
            name ∉ used)) := by
  induction deps with
  | nil => intro acc; simp
  | cons kv deps2 ih =>
    intro acc
    rw [List.foldl_cons, ih, List.exists_mem_cons_iff]
    by_cases hkv : kv.1 = name
    · rw [hkv]
      by_cases hskip : shouldSkipDependency name = true
      · rw [if_pos hskip]
        simp [hskip]
      · have hskipf : shouldSkipDependency name = false := by
          simpa using hskip
        rw [if_neg hskip]
        by_cases hused : name ∈ used
        · rw [if_pos (by simpa using hused)]
          simp [hskipf, hused]
        · rw [if_neg (by simpa using hused)]
          rw [aGet_aSet_isSome]
          simp [hskipf, hused]
    · have hne : ¬(name = kv.1) := fun he => hkv he.symm
      by_cases hskip : shouldSkipDependency kv.1 = true
      · rw [if_pos hskip]
        simp [hkv]
      · rw [if_neg hskip]
        by_cases hused : kv.1 ∈ used
        · rw [if_pos (by simpa using hused)]
          simp [hkv]
        · rw [if_neg (by simpa using hused)]
          rw [aGet_aSet_isSome]
          simp [hkv, hne]

lemma findUnused_key (manifests : List Manifest) (used : List String) (name : String) :
    (aGet (findUnusedDependencies manifests used) name).isSome = true ↔
      ((∃ m ∈ manifests,
          (∃ kv ∈ m.dependencies, kv.1 = name) ∨ (∃ kv ∈ m.devDependencies, kv.1 = name))
        ∧ shouldSkipDependency name = false ∧ name ∉ used) := by
  unfold findUnusedDependencies
  have hgen : ∀ (acc : List (String × String)),
      (aGet (manifests.foldl (fun acc m =>
        (spreadMerge m.dependencies m.devDependencies).foldl (fun acc2 kv =>
          if shouldSkipDependency kv.1 then acc2
          else if decide (kv.1 ∈ used) then acc2
          else aSet acc2 kv.1 kv.2) acc) acc) name).isSome = true ↔
      ((aGet acc name).isSome = true ∨
        ((∃ m ∈ manifests,
            (∃ kv ∈ m.dependencies, kv.1 = name) ∨ (∃ kv ∈ m.devDependencies, kv.1 = name))
          ∧ shouldSkipDependency name = false ∧ name ∉ used)) := by
    induction manifests with
    | nil => intro acc; simp
    | cons m ms ih =>
      intro acc
      rw [List.foldl_cons, ih, innerFold_key, spreadMerge_key,
        List.exists_mem_cons_iff]
      constructor
      · rintro ((hX | ⟨hDm, hS, hU⟩) | ⟨hE, hS, hU⟩)
        · exact Or.inl hX
        · exact Or.inr ⟨Or.inl hDm, hS, hU⟩
        · exact Or.inr ⟨Or.inr hE, hS, hU⟩
      · rintro (hX | ⟨hDE, hS, hU⟩)
        · exact Or.inl (Or.inl hX)
        · rcases hDE with hDm | hE
          · exact Or.inl (Or.inr ⟨hDm, hS, hU⟩)
          · exact Or.inr ⟨hE, hS, hU⟩
  rw [hgen]
  simp [aGet]

/-- Claim C8 (amended): a name is reported unused exactly when it is
declared under `dependencies` or `devDependencies` of some manifest
(peer and optional dependencies never contribute), it is not
skip-listed, and it is absent from the set of all observed
`importName`s; the specification's concrete example holds. -/
theorem spec_C8 :
    (∀ (manifests : List Manifest) (used : List String) (name : String),
      (aGet (findUnusedDependencies manifests used) name).isSome = true ↔
        ((∃ m ∈ manifests,
            (∃ kv ∈ m.dependencies, kv.1 = name) ∨
              (∃ kv ∈ m.devDependencies, kv.1 = name))
          ∧ shouldSkipDependency name = false ∧ name ∉ used)) ∧
    findUnusedDependencies
        [⟨[("left-pad", "1.0.0"), ("react", "18.0.0")], [], [], []⟩] ["react"] =
      [("left-pad", "1.0.0")] := by
  exact ⟨findUnused_key, by decide⟩

/-- Claim C8 counterexample: a package declared only under
`optionalDependencies`, unused, not a peer dependency and not
skip-listed, is NOT reported — the code merges only `dependencies` and
`devDependencies`, while the claim excludes only peer dependencies and
the skip-list from the manifest-declared names. -/
theorem spec_C8_counterexample :
    findUnusedDependencies [⟨[], [], [], [("foo", "1.0.0")]⟩] [] = [] ∧
    (∃ kv ∈ (⟨[], [], [], [("foo", "1.0.0")]⟩ : Manifest).optionalDependencies,
      kv.1 = "foo") ∧
    (∀ kv ∈ (⟨[], [], [], [("foo", "1.0.0")]⟩ : Manifest).peerDependencies,
      kv.1 ≠ "foo") ∧
    shouldSkipDependency "foo" = false ∧
    ("foo" : String) ∉ ([] : List String) := by
  refine ⟨by decide, ⟨("foo", "1.0.0"), by simp⟩, by simp, by decide, by simp⟩

/-- Claim C10: the memoized local-import classifier returns, for an
already-seen specifier, the value computed at the first call even if
the path-alias configuration changed in between (the configuration is
not part of the cache key); likewise the memoized framework classifier
returns the same boolean for two calls with the same
(name, ignore-list) argument pair. -/
theorem spec_C10 :
    (∀ (cfg1 cfg2 : List Str) (cache : List (Str × Bool)) (x : Str),
      aGet cache x = none →
      (memoCall isLocalImport cfg1 cache x).1 = isLocalImport cfg1 x ∧
      (memoCall isLocalImport cfg2 (memoCall isLocalImport cfg1 cache x).2 x).1 =
        (memoCall isLocalImport cfg1 cache x).1) ∧
    (∀ (cache : List ((Str × List Str) × Bool)) (p : Str × List Str),
      (memoCall (fun _ q => isFrameworkPackage q.1 q.2) ()
          (memoCall (fun _ q => isFrameworkPackage q.1 q.2) () cache p).2 p).1 =
        (memoCall (fun _ q => isFrameworkPackage q.1 q.2) () cache p).1) := by
  constructor
  · intro cfg1 cfg2 cache x hnone
    have h1 : memoCall isLocalImport cfg1 cache x =
        (isLocalImport cfg1 x, aSet cache x (isLocalImport cfg1 x)) := by
      simp [memoCall, hnone]
    rw [h1]
    refine ⟨rfl, ?_⟩
    simp [memoCall, aGet_aSet_self]
  · intro cache p
    cases h : aGet cache p with
    | some v => simp [memoCall, h]
    | none => simp [memoCall, h, aGet_aSet_self]

/-- Witness for C10 at a concrete specifier and configuration change. -/
theorem spec_C10_witness :
    (memoCall isLocalImport [] [] (str "lodash")).1 = isLocalImport [] (str "lodash") ∧
    (memoCall isLocalImport [str "lo"]
        (memoCall isLocalImport [] [] (str "lodash")).2 (str "lodash")).1 =
      (memoCall isLocalImport [] [] (str "lodash")).1 := by
  have h := spec_C10.1 [] [str "lo"] [] (str "lodash") rfl
  exact ⟨h.1, h.2⟩

/-- Witness for C7 at a concrete cancellation point. -/
theorem spec_C7_witness :
    (doProcessWorkspace (fun p => decide (25 ≤ p)) 20 files100
      emptyFPState).stats.processedFiles ≤ 25 := by
  exact spec_C7.1 files100 20 25 emptyFPState (by decide)

end NpmIV
